import Mathlib

/-!
Verification of the DLD term-project assembler (`assembler.py`).

The Python source is shallowly embedded below.  Machine integers are
modelled as `Nat`/`Int` (Python integers are unbounded, so no wrap-around
is introduced by the embedding itself); Python exceptions are modelled by
`Except AsmErr`; the line loop of `assemble_file` is modelled as a fold
that aborts on the first error, mirroring the `raise` in the loop body.
-/

/-- The whitespace characters recognised by Python's `str.strip()` and
no-argument `str.split()`. -/
def isPySpace (c : Char) : Bool :=
  c = ' ' || c = '\t' || c = '\n' || c = '\r' || c = '\x0b' || c = '\x0c'

/-- `line.split("//")[0]`: everything strictly before the first `//`. -/
def dropComment : List Char → List Char
  | [] => []
  | '/' :: '/' :: _ => []
  | c :: rest => c :: dropComment rest

/-- Python `str.strip()`: remove leading and trailing whitespace. -/
def pyStrip (l : List Char) : List Char :=
  ((l.dropWhile isPySpace).reverse.dropWhile isPySpace).reverse

/-- `line.replace(",", " ")`, one character at a time. -/
def commaToSpace (c : Char) : Char :=
  if c = ',' then ' ' else c

/-- Helper for `splitWs`: accumulates the current word (reversed). -/
def splitWsAux : List Char → List Char → List (List Char)
  | [], acc => if acc.isEmpty then [] else [acc.reverse]
  | c :: rest, acc =>
    if isPySpace c then
      if acc.isEmpty then splitWsAux rest [] else acc.reverse :: splitWsAux rest []
    else
      splitWsAux rest (c :: acc)

/-- Python no-argument `str.split()`: split on runs of whitespace,
discarding empty pieces. -/
def splitWs (l : List Char) : List (List Char) :=
  splitWsAux l []

/-- Python `str.upper()` on an ASCII character. -/
def pyUpperChar (c : Char) : Char :=
  if 'a' ≤ c && c ≤ 'z' then Char.ofNat (c.toNat - 32) else c

/-- Python `str.upper()`. -/
def pyUpper (s : String) : String :=
  String.mk (s.data.map pyUpperChar)

/-- Digit run accepted by Python `int()` after the first digit: decimal
digits with single underscores allowed between digits.  Accumulates the
base-10 value. -/
def pyDigitsVal : List Char → Nat → Option Nat
  | [], acc => some acc
  | '_' :: c :: rest, acc =>
    if c.isDigit then pyDigitsVal rest (acc * 10 + (c.toNat - 48)) else none
  | ['_'], _ => none
  | c :: rest, acc =>
    if c.isDigit then pyDigitsVal rest (acc * 10 + (c.toNat - 48)) else none

/-- The unsigned part of a Python `int()` literal: a nonempty digit run
(leading underscore not allowed). -/
def pyIntBody : List Char → Option Nat
  | [] => none
  | c :: rest => if c.isDigit then pyDigitsVal rest (c.toNat - 48) else none

/-- Python `int(s)` with base 10: optional surrounding whitespace, an
optional `+`/`-` sign, then a digit run; `none` models the `ValueError`
raised on any other input. -/
def pyInt (l : List Char) : Option Int :=
  match pyStrip l with
  | '+' :: rest => (pyIntBody rest).map (fun n => (n : Int))
  | '-' :: rest => (pyIntBody rest).map (fun n => -(n : Int))
  | t => (pyIntBody t).map (fun n => (n : Int))

/-- The errors the assembler can raise.  Each constructor records which
Python exception it models. -/
inductive AsmErr where
  /-- `ValueError` from `reg_number`: wrong first character, or `int()`
  failed on the suffix. -/
  | invalidRegister (tok : String)
  /-- `ValueError("Register out of range: ...")` from `reg_number`. -/
  | registerOutOfRange (tok : String)
  /-- `ValueError("Unknown instruction: ...")` from `parse_line`. -/
  | unknownInstruction (mn : String)
  /-- `IndexError` from indexing past the end of the token list. -/
  | missingOperand
  /-- `ValueError` from `int()` on an immediate/address/offset token. -/
  | badImmediate (tok : String)
  /-- `ValueError("Unhandled instruction format: ...")` (dead code). -/
  | unhandledFormat (mn : String)
  deriving DecidableEq, Repr

/-- The `OPCODES` dictionary. -/
def OPCODES : List (String × Nat) :=
  [("ADD", 0b00000), ("SUB", 0b00001), ("NAND", 0b00010), ("NOR", 0b00011),
   ("SRL", 0b00100), ("SRA", 0b00101), ("ADDI", 0b00110), ("SUBI", 0b00111),
   ("NANDI", 0b01000), ("NORI", 0b01001), ("LD", 0b01010), ("ST", 0b01011),
   ("JUMP", 0b01100), ("JAL", 0b01101), ("LUI", 0b01110), ("CMOV", 0b01111),
   ("PUSH", 0b10000), ("POP", 0b10001)]

/-- Dictionary lookup `OPCODES[ins]` (with `ins in OPCODES` as `isSome`). -/
def opLookup (s : String) : Option Nat :=
  (OPCODES.find? (fun p => p.1 == s)).map (fun p => p.2)

/-- `reg_number(r)`: convert `R0..R15` to an integer index. -/
def reg_number (r : String) : Except AsmErr Nat :=
  match r.data with
  | 'R' :: rest =>
    match pyInt rest with
    | none => .error (.invalidRegister r)
    | some num =>
      if 0 ≤ num ∧ num ≤ 15 then .ok num.toNat
      else .error (.registerOutOfRange r)
  | _ => .error (.invalidRegister r)

/-- `signed(val, bits)`: two's-complement truncation, exactly as in the
source: add `1 << bits` when negative, then mask with `(1 << bits) - 1`
(Python `&` on arbitrary integers is `Int.land`). -/
def signed (val : Int) (bits : Nat) : Int :=
  Int.land (if val < 0 then ((1 <<< bits : Nat) : Int) + val else val)
    (((1 <<< bits : Nat) : Int) - 1)

/-- `encode_R`: `opcode(5) | rd(4) | rs1(4) | rs2(4) | 0(1)`. -/
def encode_R (op rd rs1 rs2 : Nat) : Nat :=
  (op <<< 13) ||| (rd <<< 9) ||| (rs1 <<< 5) ||| (rs2 <<< 1)

/-- `encode_I`: `opcode(5) | rd(4) | rs1(4) | imm5(5)`. -/
def encode_I (op rd rs1 : Nat) (imm5 : Int) : Nat :=
  (op <<< 13) ||| (rd <<< 9) ||| (rs1 <<< 5) ||| (signed imm5 5).toNat

/-- `encode_M`: `opcode(5) | reg(4) | addr(9)` with `addr &= 0x1FF`. -/
def encode_M (op reg : Nat) (addr : Int) : Nat :=
  (op <<< 13) ||| (reg <<< 9) ||| (Int.land addr 0x1FF).toNat

/-- `encode_J`: `opcode(5) | offset13`. -/
def encode_J (op : Nat) (offset : Int) : Nat :=
  (op <<< 13) ||| (signed offset 13).toNat

/-- `encode_U`: `opcode(5) | rd(4) | imm9` with `imm9 &= 0x1FF`. -/
def encode_U (op rd : Nat) (imm9 : Int) : Nat :=
  (op <<< 13) ||| (rd <<< 9) ||| (Int.land imm9 0x1FF).toNat

/-- `encode_CMOV`: `opcode | r1 | r2 | r3 | 0`. -/
def encode_CMOV (op r1 r2 r3 : Nat) : Nat :=
  (op <<< 13) ||| (r1 <<< 9) ||| (r2 <<< 5) ||| (r3 <<< 1)

/-- `encode_STACK`: `opcode | reg | zero padding`. -/
def encode_STACK (op reg : Nat) : Nat :=
  (op <<< 13) ||| (reg <<< 9)

/-- `parts[i]`: list indexing; an out-of-range index raises `IndexError`
(modelled as `missingOperand`). -/
def getTok (parts : List String) (i : Nat) : Except AsmErr String :=
  match parts.get? i with
  | some s => .ok s
  | none => .error .missingOperand

/-- `int(tok)` on an operand token; `ValueError` on failure. -/
def intTok (tok : String) : Except AsmErr Int :=
  match pyInt tok.data with
  | some v => .ok v
  | none => .error (.badImmediate tok)

/-- `if ins not in OPCODES: raise ...` followed by `op = OPCODES[ins]`. -/
def opFetch (ins : String) : Except AsmErr Nat :=
  match opLookup ins with
  | some op => .ok op
  | none => .error (.unknownInstruction ins)

/-- The body of `parse_line` after comment stripping, for a non-blank
line split into tokens: opcode lookup and format dispatch. -/
def encodeParts (parts : List String) : Except AsmErr Nat := do
  let p0 ← getTok parts 0
  let ins := pyUpper p0
  let op ← opFetch ins
  if ins ∈ ["ADD", "SUB", "NAND", "NOR", "SRL", "SRA"] then
    let rd ← reg_number (← getTok parts 1)
    let rs1 ← reg_number (← getTok parts 2)
    let rs2 ← reg_number (← getTok parts 3)
    return encode_R op rd rs1 rs2
  else if ins ∈ ["ADDI", "SUBI", "NANDI", "NORI"] then
    let rd ← reg_number (← getTok parts 1)
    let rs1 ← reg_number (← getTok parts 2)
    let imm5 ← intTok (← getTok parts 3)
    return encode_I op rd rs1 imm5
  else if ins = "LD" then
    let rd ← reg_number (← getTok parts 1)
    let addr ← intTok (← getTok parts 2)
    return encode_M op rd addr
  else if ins = "ST" then
    let rs ← reg_number (← getTok parts 1)
    let addr ← intTok (← getTok parts 2)
    return encode_M op rs addr
  else if ins = "JUMP" ∨ ins = "JAL" then
    let offset ← intTok (← getTok parts 1)
    return encode_J op offset
  else if ins = "LUI" then
    let rd ← reg_number (← getTok parts 1)
    let imm9 ← intTok (← getTok parts 2)
    return encode_U op rd imm9
  else if ins = "CMOV" then
    let r1 ← reg_number (← getTok parts 1)
    let r2 ← reg_number (← getTok parts 2)
    let r3 ← reg_number (← getTok parts 3)
    return encode_CMOV op r1 r2 r3
  else if ins = "PUSH" ∨ ins = "POP" then
    let reg ← reg_number (← getTok parts 1)
    return encode_STACK op reg
  else
    .error (.unhandledFormat ins)

/-- The token list of a line: strip the comment and surrounding
whitespace, replace commas by spaces, split on whitespace. -/
def tokens (line : String) : List String :=
  (splitWs ((pyStrip (dropComment line.data)).map commaToSpace)).map
    (fun l => String.mk l)

/-- `parse_line`: `None` for blank/comment-only lines, otherwise the
encoded word; errors propagate. -/
def parse_line (line : String) : Except AsmErr (Option Nat) :=
  if pyStrip (dropComment line.data) = [] then .ok none
  else (encodeParts (tokens line)).map some

/-- The encoding loop of `assemble_file`: encode each line in order,
skip `None`, abort on the first error (the loop re-raises unchanged). -/
def assemble : List String → Except AsmErr (List Nat)
  | [] => .ok []
  | line :: rest =>
    match parse_line line with
    | .error e => .error e
    | .ok none => assemble rest
    | .ok (some w) => (assemble rest).map (fun ws => w :: ws)

/-- One hexadecimal digit, lowercase, as produced by Python `"%x"`. -/
def hexDigit (n : Nat) : Char :=
  if n < 10 then Char.ofNat (48 + n) else Char.ofNat (87 + n)

/-- Fuelled most-significant-first hex digits of `n` (no leading zeros;
`n+1` fuel always suffices since the value shrinks every step). -/
def hexDigitsAux : Nat → Nat → List Char
  | 0, _ => []
  | fuel + 1, n =>
    if n < 16 then [hexDigit n]
    else hexDigitsAux fuel (n / 16) ++ [hexDigit (n % 16)]

/-- The digits of Python `f"{n:x}"` (lowercase, no padding). -/
def pyHex (n : Nat) : List Char :=
  hexDigitsAux (n + 1) n

/-- Python `f"{n:05x}"`: zero-pad on the left to width 5. -/
def hex5 (n : Nat) : String :=
  String.mk (List.replicate (5 - (pyHex n).length) '0' ++ pyHex n)

/-- Fuelled version of the `range(0, len, 8)` output loop: one text line
per group of 8 words, words joined by single spaces. -/
def renderLinesAux : Nat → List String → List String
  | 0, _ => []
  | _, [] => []
  | fuel + 1, ws =>
    String.intercalate " " (ws.take 8) :: renderLinesAux fuel (ws.drop 8)

/-- The data lines of the output file. -/
def renderLines (ws : List String) : List String :=
  renderLinesAux ws.length ws

/-- The full text written to the output file: the `v2.0 raw` header, then
the data lines, each terminated by a newline. -/
def renderOutput (codes : List Nat) : String :=
  "v2.0 raw\n" ++ String.join ((renderLines (codes.map hex5)).map (fun l => l ++ "\n"))

/-- `assemble_file` end to end on the list of input lines: the text of
the output file, or the error that aborted the run (in which case the
output file is never written). -/
def assemble_file (lines : List String) : Except AsmErr String :=
  (assemble lines).map renderOutput

/-! ### Bit-level helper lemmas -/

/-- Removing the low `n` bits of `m` from the all-ones mask `2^n - 1`
leaves the complement of `m % 2^n` within the mask. -/
theorem ldiff_mask_add (n : Nat) : ∀ m : Nat, Nat.ldiff (2^n - 1) m + m % 2^n = 2^n - 1 := by
  induction n with
  | zero =>
    intro m
    have h0 : Nat.ldiff 0 m = 0 := by
      apply Nat.eq_of_testBit_eq
      intro i
      simp [Nat.testBit_ldiff]
    simp [h0, Nat.mod_one]
  | succ n ih =>
    intro m
    have hone : (1:Nat) ≤ 2^n := Nat.one_le_two_pow
    have hpow : (2:Nat)^(n+1) = 2 * 2^n := by ring
    have hmask : (2^(n+1) - 1 : Nat) = Nat.bit true (2^n - 1) := by
      rw [Nat.bit_val]
      simp
      omega
    have hr : m.div2 % 2^n < 2^n := Nat.mod_lt _ (Nat.pos_pow_of_pos n (by norm_num))
    have hdm := Nat.div_add_mod m.div2 (2^n)
    have hmod : ∀ b : Bool, Nat.bit b m.div2 % 2^(n+1) = Nat.bit b (m.div2 % 2^n) := by
      intro b
      rw [Nat.bit_val, Nat.bit_val]
      have h2 : 2 * m.div2 + b.toNat = 2^(n+1) * (m.div2 / 2^n) + (2 * (m.div2 % 2^n) + b.toNat) := by
        rw [hpow, Nat.mul_assoc]
        omega
      rw [h2, Nat.mul_add_mod]
      exact Nat.mod_eq_of_lt (by cases b <;> simp [hpow] <;> omega)
    conv_lhs => rw [← Nat.bit_decomp m]
    rw [hmask, Nat.ldiff_bit, hmod m.bodd]
    have hih := ih m.div2
    rw [Nat.bit_val, Nat.bit_val]
    cases m.bodd <;> simp [hpow] <;> omega

/-- Python `x & ((1 << n) - 1)` on an arbitrary (possibly negative)
integer is reduction modulo `2^n`. -/
theorem int_land_mask (x : Int) (n : Nat) :
    Int.land x (((2^n - 1 : Nat) : Int)) = x % ((2^n : Nat) : Int) := by
  have hone : (1:Nat) ≤ 2^n := Nat.one_le_two_pow
  cases x with
  | ofNat m =>
    show Int.ofNat (Nat.land m (2^n - 1)) = _
    have hand : Nat.land m (2^n - 1) = m % 2^n := Nat.and_pow_two_sub_one_eq_mod m n
    rw [hand]
    rfl
  | negSucc m =>
    show Int.ofNat (Nat.ldiff (2^n - 1) m) = _
    have hmod : Int.negSucc m % ((2^n : Nat) : Int) = Int.subNatNat (2^n) (m % 2^n + 1) := rfl
    have hr : m % 2^n < 2^n := Nat.mod_lt _ (Nat.pos_pow_of_pos n (by norm_num))
    rw [hmod, Int.subNatNat_of_le (by omega)]
    have := ldiff_mask_add n m
    congr 1
    omega

/-- Right shift distributes over `|||`. -/
theorem lor_shiftRight (a b k : Nat) : (a ||| b) >>> k = (a >>> k) ||| (b >>> k) := by
  apply Nat.eq_of_testBit_eq
  intro i
  simp [Nat.testBit_shiftRight, Nat.testBit_lor]

/-- `signed` is reduction modulo `2^bits`, for every integer and width. -/
theorem signed_eq_emod (val : Int) (bits : Nat) : signed val bits = val % ((2:Int)^bits) := by
  unfold signed
  have hsl : ((1 <<< bits : Nat) : Int) = ((2^bits : Nat) : Int) := by
    rw [Nat.shiftLeft_eq, Nat.one_mul]
  have hone : (1:Nat) ≤ 2^bits := Nat.one_le_two_pow
  have hmask : ((1 <<< bits : Nat) : Int) - 1 = ((2^bits - 1 : Nat) : Int) := by
    rw [hsl]
    push_cast [hone]
    ring
  have hcast : ((2^bits : Nat) : Int) = (2:Int)^bits := by push_cast; ring
  rw [hmask]
  split
  · rw [int_land_mask, hsl, hcast, Int.add_comm]
    have h := Int.add_mul_emod_self_left (a := val) (b := (2:Int)^bits) (c := 1)
    simp only [Int.mul_one] at h
    exact h
  · rw [int_land_mask, hcast]

/-- `signed` lands in `[0, 2^bits)`. -/
theorem signed_bounds (val : Int) (bits : Nat) :
    0 ≤ signed val bits ∧ signed val bits < (2:Int)^bits := by
  rw [signed_eq_emod]
  have hpos : (0:Int) < (2:Int)^bits := by positivity
  exact ⟨Int.emod_nonneg val (by omega), Int.emod_lt_of_pos val hpos⟩

/-- `(signed val bits).toNat` is below `2^bits`. -/
theorem signed_toNat_lt (val : Int) (bits : Nat) : (signed val bits).toNat < 2^bits := by
  have h := signed_bounds val bits
  have : ((2:Int)^bits) = ((2^bits : Nat) : Int) := by push_cast; ring
  omega

/-- The 9-bit mask `addr & 0x1FF` lands in `[0, 512)`. -/
theorem land_511_lt (a : Int) : (Int.land a 0x1FF).toNat < 512 := by
  have h : (0x1FF : Int) = ((2^9 - 1 : Nat) : Int) := by norm_num
  rw [h, int_land_mask]
  have hpos : (0:Int) < ((2^9 : Nat) : Int) := by norm_num
  have h1 := Int.emod_nonneg a (by omega : ((2^9 : Nat) : Int) ≠ 0)
  have h2 := Int.emod_lt_of_pos a hpos
  omega

/-! ### Parsing helper lemmas -/

/-- Token fetch succeeds exactly on in-range indices, with the indexed
element. -/
theorem getTok_ok_iff (parts : List String) (i : Nat) (s : String) :
    getTok parts i = .ok s ↔ parts.get? i = some s := by
  unfold getTok
  cases h : parts.get? i <;> simp

/-- Token fetch fails exactly on out-of-range indices, and then the
error is `missingOperand` (Python's `IndexError`). -/
theorem getTok_missing_iff (parts : List String) (i : Nat) :
    getTok parts i = .error .missingOperand ↔ parts.length ≤ i := by
  unfold getTok
  cases h : parts.get? i with
  | none => simp [List.get?_eq_none.mp h, List.get?_eq_none.symm.mpr, h]
  | some s =>
    have := List.get?_eq_none (l := parts) (n := i)
    simp only [h]
    constructor
    · intro hc
      cases hc
    · intro hlen
      rw [this.mpr hlen] at h
      cases h

/-- A successfully decoded register index is at most 15. -/
theorem reg_number_le (r : String) (n : Nat) (h : reg_number r = .ok n) : n ≤ 15 := by
  unfold reg_number at h
  split at h
  · rename_i rest heq
    cases hp : pyInt rest with
    | none =>
      rw [hp] at h
      exact absurd h (by simp)
    | some num =>
      rw [hp] at h
      by_cases hc : 0 ≤ num ∧ num ≤ 15
      · simp only [hc, and_self, if_true] at h
        cases h
        omega
      · simp only [if_neg hc] at h
        exact absurd h (by simp)
  · exact absurd h (by simp)

/-- Every opcode in the table is a 5-bit value. -/
theorem opLookup_lt_32 (s : String) (op : Nat) (h : opLookup s = some op) : op < 32 := by
  unfold opLookup at h
  cases hf : OPCODES.find? (fun p => p.1 == s) with
  | none => rw [hf] at h; cases h
  | some p =>
    rw [hf] at h
    have hmem : p ∈ OPCODES := List.mem_of_find?_eq_some hf
    have hall : ∀ q ∈ OPCODES, q.2 < 32 := by decide
    cases h
    exact hall p hmem

/-- `bind` on a successful `Except` runs the continuation. -/
theorem ok_bind {α β : Type} (a : α) (f : α → Except AsmErr β) :
    (Except.ok a >>= f) = f a := rfl

/-- `bind` on a failed `Except` propagates the error unchanged. -/
theorem error_bind {α β : Type} (e : AsmErr) (f : α → Except AsmErr β) :
    ((Except.error e : Except AsmErr α) >>= f) = Except.error e := rfl

/-- Packing a 5-bit opcode above 13 low bits: the opcode is recovered at
bits 17–13 and the word fits in 18 bits. -/
theorem pack_spec (op low : Nat) (hop : op < 32) (hlow : low < 2^13) :
    ((op <<< 13 ||| low) >>> 13) &&& 31 = op ∧ (op <<< 13 ||| low) < 2^18 := by
  constructor
  · rw [lor_shiftRight]
    have h1 : op <<< 13 >>> 13 = op := by
      rw [Nat.shiftLeft_eq, Nat.shiftRight_eq_div_pow]
      exact Nat.mul_div_cancel _ (by positivity)
    have h2 : low >>> 13 = 0 := by
      rw [Nat.shiftRight_eq_div_pow]
      exact Nat.div_eq_of_lt hlow
    have h31 : (31:Nat) = 2^5 - 1 := by norm_num
    rw [h1, h2]
    have hz : op ||| 0 = op := Nat.or_zero op
    rw [hz, h31, Nat.and_pow_two_sub_one_eq_mod]
    exact Nat.mod_eq_of_lt hop
  · apply Nat.or_lt_two_pow
    · rw [Nat.shiftLeft_eq]
      norm_num
      omega
    · norm_num at hlow ⊢
      omega

/-- The low 13 bits of an R/CMOV-format word are below `2^13`. -/
theorem low13_R (rd rs1 rs2 : Nat) (h1 : rd ≤ 15) (h2 : rs1 ≤ 15) (h3 : rs2 ≤ 15) :
    (rd <<< 9 ||| (rs1 <<< 5 ||| rs2 <<< 1)) < 2^13 := by
  apply Nat.or_lt_two_pow
  · rw [Nat.shiftLeft_eq]
    norm_num
    omega
  · apply Nat.or_lt_two_pow
    · rw [Nat.shiftLeft_eq]
      norm_num
      omega
    · rw [Nat.shiftLeft_eq]
      norm_num
      omega

/-- Recovery of the opcode and the 18-bit bound, for `encode_R`. -/
theorem encode_R_spec (op rd rs1 rs2 : Nat) (hop : op < 32)
    (h1 : rd ≤ 15) (h2 : rs1 ≤ 15) (h3 : rs2 ≤ 15) :
    ((encode_R op rd rs1 rs2) >>> 13) &&& 31 = op ∧ encode_R op rd rs1 rs2 < 2^18 := by
  have hpack : encode_R op rd rs1 rs2
      = op <<< 13 ||| (rd <<< 9 ||| (rs1 <<< 5 ||| rs2 <<< 1)) := by
    unfold encode_R
    rw [Nat.lor_assoc, Nat.lor_assoc]
  rw [hpack]
  exact pack_spec _ _ hop (low13_R rd rs1 rs2 h1 h2 h3)

/-- Recovery of the opcode and the 18-bit bound, for `encode_CMOV`. -/
theorem encode_CMOV_spec (op r1 r2 r3 : Nat) (hop : op < 32)
    (h1 : r1 ≤ 15) (h2 : r2 ≤ 15) (h3 : r3 ≤ 15) :
    ((encode_CMOV op r1 r2 r3) >>> 13) &&& 31 = op ∧ encode_CMOV op r1 r2 r3 < 2^18 := by
  have hpack : encode_CMOV op r1 r2 r3
      = op <<< 13 ||| (r1 <<< 9 ||| (r2 <<< 5 ||| r3 <<< 1)) := by
    unfold encode_CMOV
    rw [Nat.lor_assoc, Nat.lor_assoc]
  rw [hpack]
  exact pack_spec _ _ hop (low13_R r1 r2 r3 h1 h2 h3)

/-- Recovery of the opcode and the 18-bit bound, for `encode_I`. -/
theorem encode_I_spec (op rd rs1 : Nat) (imm5 : Int) (hop : op < 32)
    (h1 : rd ≤ 15) (h2 : rs1 ≤ 15) :
    ((encode_I op rd rs1 imm5) >>> 13) &&& 31 = op ∧ encode_I op rd rs1 imm5 < 2^18 := by
  have hs := signed_toNat_lt imm5 5
  have hpack : encode_I op rd rs1 imm5
      = op <<< 13 ||| (rd <<< 9 ||| (rs1 <<< 5 ||| (signed imm5 5).toNat)) := by
    unfold encode_I
    rw [Nat.lor_assoc, Nat.lor_assoc]
  have hlow : rd <<< 9 ||| (rs1 <<< 5 ||| (signed imm5 5).toNat) < 2^13 := by
    apply Nat.or_lt_two_pow
    · rw [Nat.shiftLeft_eq]
      norm_num
      omega
    · apply Nat.or_lt_two_pow
      · rw [Nat.shiftLeft_eq]
        norm_num
        omega
      · norm_num at hs ⊢
        omega
  rw [hpack]
  exact pack_spec _ _ hop hlow

/-- Recovery of the opcode and the 18-bit bound, for `encode_M`. -/
theorem encode_M_spec (op reg : Nat) (addr : Int) (hop : op < 32) (h1 : reg ≤ 15) :
    ((encode_M op reg addr) >>> 13) &&& 31 = op ∧ encode_M op reg addr < 2^18 := by
  have ha := land_511_lt addr
  have hpack : encode_M op reg addr
      = op <<< 13 ||| (reg <<< 9 ||| (Int.land addr 0x1FF).toNat) := by
    unfold encode_M
    rw [Nat.lor_assoc]
  have hlow : reg <<< 9 ||| (Int.land addr 0x1FF).toNat < 2^13 := by
    apply Nat.or_lt_two_pow
    · rw [Nat.shiftLeft_eq]
      norm_num
      omega
    · norm_num
      omega
  rw [hpack]
  exact pack_spec _ _ hop hlow

/-- Recovery of the opcode and the 18-bit bound, for `encode_U`. -/
theorem encode_U_spec (op rd : Nat) (imm9 : Int) (hop : op < 32) (h1 : rd ≤ 15) :
    ((encode_U op rd imm9) >>> 13) &&& 31 = op ∧ encode_U op rd imm9 < 2^18 := by
  have ha := land_511_lt imm9
  have hpack : encode_U op rd imm9
      = op <<< 13 ||| (rd <<< 9 ||| (Int.land imm9 0x1FF).toNat) := by
    unfold encode_U
    rw [Nat.lor_assoc]
  have hlow : rd <<< 9 ||| (Int.land imm9 0x1FF).toNat < 2^13 := by
    apply Nat.or_lt_two_pow
    · rw [Nat.shiftLeft_eq]
      norm_num
      omega
    · norm_num
      omega
  rw [hpack]
  exact pack_spec _ _ hop hlow

/-- Recovery of the opcode and the 18-bit bound, for `encode_J`. -/
theorem encode_J_spec (op : Nat) (offset : Int) (hop : op < 32) :
    ((encode_J op offset) >>> 13) &&& 31 = op ∧ encode_J op offset < 2^18 := by
  have hs := signed_toNat_lt offset 13
  unfold encode_J
  exact pack_spec _ _ hop hs

/-- Recovery of the opcode and the 18-bit bound, for `encode_STACK`. -/
theorem encode_STACK_spec (op reg : Nat) (hop : op < 32) (h1 : reg ≤ 15) :
    ((encode_STACK op reg) >>> 13) &&& 31 = op ∧ encode_STACK op reg < 2^18 := by
  have hlow : reg <<< 9 < 2^13 := by
    rw [Nat.shiftLeft_eq]
    norm_num
    omega
  unfold encode_STACK
  exact pack_spec _ _ hop hlow

/-- `return` in the `Except` monad is `.ok`. -/
theorem ret_ok {α : Type} (a : α) : (pure a : Except AsmErr α) = Except.ok a := rfl

/-- Inversion of a successful `Except` bind. -/
theorem bind_ok_inv {α β : Type} (x : Except AsmErr α) (f : α → Except AsmErr β) (w : β)
    (h : (x >>= f) = .ok w) : ∃ a, x = .ok a ∧ f a = .ok w := by
  cases x with
  | error e =>
    rw [error_bind] at h
    cases h
  | ok a =>
    rw [ok_bind] at h
    exact ⟨a, rfl, h⟩

/-- Opcode fetch succeeds exactly when the mnemonic is in the table. -/
theorem opFetch_ok_iff (ins : String) (op : Nat) :
    opFetch ins = .ok op ↔ opLookup ins = some op := by
  unfold opFetch
  cases h : opLookup ins <;> simp

/-- The number of operands each mnemonic's format reads (the largest
token index accessed by the corresponding `parse_line` branch). -/
def requiredOps (ins : String) : Nat :=
  if ins ∈ ["ADD", "SUB", "NAND", "NOR", "SRL", "SRA"] then 3
  else if ins ∈ ["ADDI", "SUBI", "NANDI", "NORI"] then 3
  else if ins = "LD" then 2
  else if ins = "ST" then 2
  else if ins = "JUMP" ∨ ins = "JAL" then 1
  else if ins = "LUI" then 2
  else if ins = "CMOV" then 3
  else if ins = "PUSH" ∨ ins = "POP" then 1
  else 0

/-- Anatomy of a successful `encodeParts` run: the mnemonic (token 0,
uppercased) is in the opcode table, every token index up to the format's
operand count was in range, the opcode is recoverable at bits 17-13 of
the word, and the word fits in 18 bits. -/
theorem encodeParts_ok_spec (parts : List String) (w : Nat) (h : encodeParts parts = .ok w) :
    ∃ p0 op, parts.get? 0 = some p0 ∧ opLookup (pyUpper p0) = some op ∧
      (parts.get? (requiredOps (pyUpper p0))).isSome ∧
      (w >>> 13) &&& 31 = op ∧ w < 2^18 := by
  unfold encodeParts at h
  obtain ⟨p0, h0, h⟩ := bind_ok_inv _ _ _ h
  try dsimp only at h
  obtain ⟨op, hopf, h⟩ := bind_ok_inv _ _ _ h
  try dsimp only at h
  have hop : opLookup (pyUpper p0) = some op := (opFetch_ok_iff _ _).mp hopf
  have hop32 : op < 32 := opLookup_lt_32 _ _ hop
  have hget0 : parts.get? 0 = some p0 := (getTok_ok_iff _ _ _).mp h0
  by_cases hc1 : pyUpper p0 ∈ ["ADD", "SUB", "NAND", "NOR", "SRL", "SRA"]
  · rw [if_pos hc1] at h
    obtain ⟨t1, h1, h⟩ := bind_ok_inv _ _ _ h
    try dsimp only at h
    obtain ⟨rd, hr1, h⟩ := bind_ok_inv _ _ _ h
    try dsimp only at h
    obtain ⟨t2, h2, h⟩ := bind_ok_inv _ _ _ h
    try dsimp only at h
    obtain ⟨rs1, hr2, h⟩ := bind_ok_inv _ _ _ h
    try dsimp only at h
    obtain ⟨t3, h3, h⟩ := bind_ok_inv _ _ _ h
    try dsimp only at h
    obtain ⟨rs2, hr3, h⟩ := bind_ok_inv _ _ _ h
    try dsimp only at h
    rw [ret_ok] at h
    injection h with hw
    subst hw
    obtain ⟨hx, hb⟩ := encode_R_spec op rd rs1 rs2 hop32 (reg_number_le _ _ hr1) (reg_number_le _ _ hr2) (reg_number_le _ _ hr3)
    refine ⟨p0, op, hget0, hop, ?_, hx, hb⟩
    have hreq : requiredOps (pyUpper p0) = 3 := by simp [requiredOps, hc1]
    rw [hreq, (getTok_ok_iff _ _ _).mp h3]
    rfl
  · rw [if_neg hc1] at h
    by_cases hc2 : pyUpper p0 ∈ ["ADDI", "SUBI", "NANDI", "NORI"]
    · rw [if_pos hc2] at h
      obtain ⟨t1, h1, h⟩ := bind_ok_inv _ _ _ h
      try dsimp only at h
      obtain ⟨rd, hr1, h⟩ := bind_ok_inv _ _ _ h
      try dsimp only at h
      obtain ⟨t2, h2, h⟩ := bind_ok_inv _ _ _ h
      try dsimp only at h
      obtain ⟨rs1, hr2, h⟩ := bind_ok_inv _ _ _ h
      try dsimp only at h
      obtain ⟨t3, h3, h⟩ := bind_ok_inv _ _ _ h
      try dsimp only at h
      obtain ⟨imm5, hi1, h⟩ := bind_ok_inv _ _ _ h
      try dsimp only at h
      rw [ret_ok] at h
      injection h with hw
      subst hw
      obtain ⟨hx, hb⟩ := encode_I_spec op rd rs1 imm5 hop32 (reg_number_le _ _ hr1) (reg_number_le _ _ hr2)
      refine ⟨p0, op, hget0, hop, ?_, hx, hb⟩
      have hreq : requiredOps (pyUpper p0) = 3 := by simp [requiredOps, hc1, hc2]
      rw [hreq, (getTok_ok_iff _ _ _).mp h3]
      rfl
    · rw [if_neg hc2] at h
      by_cases hc3 : pyUpper p0 = "LD"
      · rw [if_pos hc3] at h
        obtain ⟨t1, h1, h⟩ := bind_ok_inv _ _ _ h
        try dsimp only at h
        obtain ⟨rd, hr1, h⟩ := bind_ok_inv _ _ _ h
        try dsimp only at h
        obtain ⟨t2, h2, h⟩ := bind_ok_inv _ _ _ h
        try dsimp only at h
        obtain ⟨addr, hi1, h⟩ := bind_ok_inv _ _ _ h
        try dsimp only at h
        rw [ret_ok] at h
        injection h with hw
        subst hw
        obtain ⟨hx, hb⟩ := encode_M_spec op rd addr hop32 (reg_number_le _ _ hr1)
        refine ⟨p0, op, hget0, hop, ?_, hx, hb⟩
        have hreq : requiredOps (pyUpper p0) = 2 := by simp [requiredOps, hc1, hc2, hc3]
        rw [hreq, (getTok_ok_iff _ _ _).mp h2]
        rfl
      · rw [if_neg hc3] at h
        by_cases hc4 : pyUpper p0 = "ST"
        · rw [if_pos hc4] at h
          obtain ⟨t1, h1, h⟩ := bind_ok_inv _ _ _ h
          try dsimp only at h
          obtain ⟨rs, hr1, h⟩ := bind_ok_inv _ _ _ h
          try dsimp only at h
          obtain ⟨t2, h2, h⟩ := bind_ok_inv _ _ _ h
          try dsimp only at h
          obtain ⟨addr, hi1, h⟩ := bind_ok_inv _ _ _ h
          try dsimp only at h
          rw [ret_ok] at h
          injection h with hw
          subst hw
          obtain ⟨hx, hb⟩ := encode_M_spec op rs addr hop32 (reg_number_le _ _ hr1)
          refine ⟨p0, op, hget0, hop, ?_, hx, hb⟩
          have hreq : requiredOps (pyUpper p0) = 2 := by simp [requiredOps, hc1, hc2, hc3, hc4]
          rw [hreq, (getTok_ok_iff _ _ _).mp h2]
          rfl
        · rw [if_neg hc4] at h
          by_cases hc5 : pyUpper p0 = "JUMP" ∨ pyUpper p0 = "JAL"
          · rw [if_pos hc5] at h
            obtain ⟨t1, h1, h⟩ := bind_ok_inv _ _ _ h
            try dsimp only at h
            obtain ⟨offset, hi1, h⟩ := bind_ok_inv _ _ _ h
            try dsimp only at h
            rw [ret_ok] at h
            injection h with hw
            subst hw
            obtain ⟨hx, hb⟩ := encode_J_spec op offset hop32
            refine ⟨p0, op, hget0, hop, ?_, hx, hb⟩
            have hreq : requiredOps (pyUpper p0) = 1 := by simp [requiredOps, hc1, hc2, hc3, hc4, hc5]
            rw [hreq, (getTok_ok_iff _ _ _).mp h1]
            rfl
          · rw [if_neg hc5] at h
            by_cases hc6 : pyUpper p0 = "LUI"
            · rw [if_pos hc6] at h
              obtain ⟨t1, h1, h⟩ := bind_ok_inv _ _ _ h
              try dsimp only at h
              obtain ⟨rd, hr1, h⟩ := bind_ok_inv _ _ _ h
              try dsimp only at h
              obtain ⟨t2, h2, h⟩ := bind_ok_inv _ _ _ h
              try dsimp only at h
              obtain ⟨imm9, hi1, h⟩ := bind_ok_inv _ _ _ h
              try dsimp only at h
              rw [ret_ok] at h
              injection h with hw
              subst hw
              obtain ⟨hx, hb⟩ := encode_U_spec op rd imm9 hop32 (reg_number_le _ _ hr1)
              refine ⟨p0, op, hget0, hop, ?_, hx, hb⟩
              have hreq : requiredOps (pyUpper p0) = 2 := by simp [requiredOps, hc1, hc2, hc3, hc4, hc5, hc6]
              rw [hreq, (getTok_ok_iff _ _ _).mp h2]
              rfl
            · rw [if_neg hc6] at h
              by_cases hc7 : pyUpper p0 = "CMOV"
              · rw [if_pos hc7] at h
                obtain ⟨t1, h1, h⟩ := bind_ok_inv _ _ _ h
                try dsimp only at h
                obtain ⟨r1, hr1, h⟩ := bind_ok_inv _ _ _ h
                try dsimp only at h
                obtain ⟨t2, h2, h⟩ := bind_ok_inv _ _ _ h
                try dsimp only at h
                obtain ⟨r2, hr2, h⟩ := bind_ok_inv _ _ _ h
                try dsimp only at h
                obtain ⟨t3, h3, h⟩ := bind_ok_inv _ _ _ h
                try dsimp only at h
                obtain ⟨r3, hr3, h⟩ := bind_ok_inv _ _ _ h
                try dsimp only at h
                rw [ret_ok] at h
                injection h with hw
                subst hw
                obtain ⟨hx, hb⟩ := encode_CMOV_spec op r1 r2 r3 hop32 (reg_number_le _ _ hr1) (reg_number_le _ _ hr2) (reg_number_le _ _ hr3)
                refine ⟨p0, op, hget0, hop, ?_, hx, hb⟩
                have hreq : requiredOps (pyUpper p0) = 3 := by simp [requiredOps, hc1, hc2, hc3, hc4, hc5, hc6, hc7]
                rw [hreq, (getTok_ok_iff _ _ _).mp h3]
                rfl
              · rw [if_neg hc7] at h
                by_cases hc8 : pyUpper p0 = "PUSH" ∨ pyUpper p0 = "POP"
                · rw [if_pos hc8] at h
                  obtain ⟨t1, h1, h⟩ := bind_ok_inv _ _ _ h
                  try dsimp only at h
                  obtain ⟨reg, hr1, h⟩ := bind_ok_inv _ _ _ h
                  try dsimp only at h
                  rw [ret_ok] at h
                  injection h with hw
                  subst hw
                  obtain ⟨hx, hb⟩ := encode_STACK_spec op reg hop32 (reg_number_le _ _ hr1)
                  refine ⟨p0, op, hget0, hop, ?_, hx, hb⟩
                  have hreq : requiredOps (pyUpper p0) = 1 := by simp [requiredOps, hc1, hc2, hc3, hc4, hc5, hc6, hc7, hc8]
                  rw [hreq, (getTok_ok_iff _ _ _).mp h1]
                  rfl
                · rw [if_neg hc8] at h
                  exact absurd h (by simp)

/-- A line that is empty after comment stripping parses to `none`. -/
theorem parse_line_blank (l : String) (h : pyStrip (dropComment l.data) = []) :
    parse_line l = .ok none := by
  unfold parse_line
  rw [if_pos h]

/-- A successful instruction line comes from `encodeParts` on its tokens. -/
theorem parse_line_ok_some (line : String) (w : Nat) (h : parse_line line = .ok (some w)) :
    encodeParts (tokens line) = .ok w := by
  unfold parse_line at h
  split at h
  · cases h
  · cases he : encodeParts (tokens line) with
    | error e =>
      rw [he] at h
      cases h
    | ok v =>
      rw [he] at h
      simp only [Except.map] at h
      cases h
      rfl

/-- A failing line aborts `assemble` with that very error (the loop
prints and re-raises the exception unchanged). -/
theorem assemble_error_cons (line : String) (e : AsmErr) (rest : List String)
    (h : parse_line line = .error e) : assemble (line :: rest) = .error e := by
  unfold assemble
  rw [h]

/-- A successful `assemble` run returns exactly the encodings of the
instruction lines, in source order; skipped lines consume no slot. -/
theorem assemble_ok_words (lines : List String) (ws : List Nat)
    (h : assemble lines = .ok ws) :
    ws = lines.filterMap (fun l =>
      match parse_line l with
      | .ok (some w) => some w
      | _ => none) := by
  induction lines generalizing ws with
  | nil =>
    unfold assemble at h
    cases h
    rfl
  | cons line rest ih =>
    unfold assemble at h
    cases hp : parse_line line with
    | error e =>
      rw [hp] at h
      cases h
    | ok o =>
      rw [hp] at h
      cases o with
      | none =>
        rw [List.filterMap_cons]
        simp only [hp]
        exact ih ws h
      | some w =>
        cases hr : assemble rest with
        | error e =>
          rw [hr] at h
          simp only [Except.map] at h
          cases h
        | ok ws' =>
          rw [hr] at h
          simp only [Except.map] at h
          cases h
          rw [List.filterMap_cons]
          simp only [hp]
          rw [ih ws' hr]

/-- If every line up to and including the first failing line behaves as
stated, `assemble` aborts with exactly that first error, whatever comes
after it. -/
theorem assemble_first_error (pre : List String) (line : String) (post : List String)
    (e : AsmErr) (hpre : ∀ l ∈ pre, ∃ r, parse_line l = .ok r)
    (hline : parse_line line = .error e) :
    assemble (pre ++ line :: post) = .error e := by
  induction pre with
  | nil =>
    exact assemble_error_cons line e post hline
  | cons p rest ih =>
    obtain ⟨r, hr⟩ := hpre p (by simp)
    have hrest : ∀ l ∈ rest, ∃ r, parse_line l = .ok r := fun l hl => hpre l (by simp [hl])
    show assemble (p :: (rest ++ line :: post)) = .error e
    unfold assemble
    rw [hr]
    cases r with
    | none => exact ih hrest
    | some w => rw [ih hrest]; rfl

/-- If every line parses, the whole translation completes. -/
theorem assemble_all_ok (lines : List String)
    (h : ∀ l ∈ lines, ∃ r, parse_line l = .ok r) :
    ∃ ws, assemble lines = .ok ws := by
  induction lines with
  | nil => exact ⟨[], rfl⟩
  | cons line rest ih =>
    obtain ⟨r, hr⟩ := h line (by simp)
    obtain ⟨ws, hws⟩ := ih (fun l hl => h l (by simp [hl]))
    unfold assemble
    rw [hr]
    cases r with
    | none => exact ⟨ws, hws⟩
    | some w =>
      rw [hws]
      exact ⟨w :: ws, rfl⟩

/-- ASCII lowercase hexadecimal digit (`0`-`9`, `a`-`f`). -/
def isLowerHex (c : Char) : Bool :=
  ('0' ≤ c && c ≤ '9') || ('a' ≤ c && c ≤ 'f')

/-- Each produced hex digit is a lowercase hexadecimal character. -/
theorem hexDigit_lower (m : Nat) (h : m < 16) : isLowerHex (hexDigit m) = true := by
  have hall : ∀ m, m < 16 → isLowerHex (hexDigit m) = true := by decide
  exact hall m h

/-- All characters produced by the hex conversion are lowercase hex. -/
theorem hexAux_lower : ∀ (fuel n : Nat), ∀ c ∈ hexDigitsAux fuel n, isLowerHex c = true := by
  intro fuel
  induction fuel with
  | zero =>
    intro n c hc
    cases hc
  | succ fuel ih =>
    intro n c hc
    unfold hexDigitsAux at hc
    by_cases hn : n < 16
    · rw [if_pos hn] at hc
      rw [List.mem_singleton] at hc
      subst hc
      exact hexDigit_lower n hn
    · rw [if_neg hn] at hc
      rcases List.mem_append.mp hc with hc | hc
      · exact ih (n / 16) c hc
      · rw [List.mem_singleton] at hc
        subst hc
        exact hexDigit_lower _ (Nat.mod_lt _ (by norm_num))

/-- A value below `16^k` needs at most `k` hex digits. -/
theorem hexAux_len_le : ∀ (fuel n k : Nat), 0 < k → n < 16^k →
    (hexDigitsAux fuel n).length ≤ k := by
  intro fuel
  induction fuel with
  | zero =>
    intro n k hk _
    simp [hexDigitsAux]
  | succ fuel ih =>
    intro n k hk hn
    unfold hexDigitsAux
    by_cases h16 : n < 16
    · rw [if_pos h16]
      simpa using hk
    · rw [if_neg h16]
      have hk2 : 2 ≤ k := by
        by_contra hlt
        have : k = 1 := by omega
        rw [this] at hn
        norm_num at hn
        omega
      have hdiv : n / 16 < 16^(k-1) := by
        rw [Nat.div_lt_iff_lt_mul (by norm_num : 0 < 16)]
        have : (16:Nat)^(k-1) * 16 = 16^k := by
          rw [← Nat.pow_succ]
          congr 1
          omega
        omega
      have := ih (n / 16) (k - 1) (by omega) hdiv
      rw [List.length_append]
      simp only [List.length_singleton]
      omega

/-- `f"{n:05x}"` has exactly five characters for any value below `16^5`. -/
theorem hex5_len (n : Nat) (h : n < 16^5) : (hex5 n).length = 5 := by
  have hle : (pyHex n).length ≤ 5 := hexAux_len_le (n+1) n 5 (by norm_num) h
  show (String.mk _).length = 5
  simp only [String.length_mk, List.length_append, List.length_replicate]
  omega

/-- Every character of `f"{n:05x}"` is a lowercase hex digit. -/
theorem hex5_lower (n : Nat) : ∀ c ∈ (hex5 n).data, isLowerHex c = true := by
  intro c hc
  have hdata : (hex5 n).data = List.replicate (5 - (pyHex n).length) '0' ++ pyHex n := rfl
  rw [hdata] at hc
  rcases List.mem_append.mp hc with hc | hc
  · have := List.eq_of_mem_replicate hc
    subst this
    decide
  · exact hexAux_lower (n+1) n c hc

/-- The output has `ceil(len/8)` data lines: 8 words per line. -/
theorem renderAux_len : ∀ (fuel : Nat) (ws : List String), ws.length ≤ fuel →
    (renderLinesAux fuel ws).length = (ws.length + 7) / 8 := by
  intro fuel
  induction fuel with
  | zero =>
    intro ws hw
    have : ws = [] := List.eq_nil_of_length_eq_zero (by omega)
    subst this
    simp [renderLinesAux]
  | succ fuel ih =>
    intro ws hw
    cases ws with
    | nil => simp [renderLinesAux]
    | cons a l =>
      show (renderLinesAux (fuel+1) (a :: l)).length = _
      unfold renderLinesAux
      have hlen : ((a :: l).drop 8).length = (a :: l).length - 8 := by
        rw [List.length_drop]
      have hrec := ih ((a :: l).drop 8)
        (by rw [List.length_drop]; simp only [List.length_cons] at hw ⊢; omega)
      rw [List.length_cons, hrec, hlen]
      simp only [List.length_cons]
      omega

/-- Lines that are blank after comment stripping produce no words. -/
theorem assemble_blank (lines : List String)
    (h : ∀ l ∈ lines, pyStrip (dropComment l.data) = []) : assemble lines = .ok [] := by
  induction lines with
  | nil => rfl
  | cons line rest ih =>
    unfold assemble
    rw [parse_line_blank line (h line (by simp))]
    exact ih (fun l hl => h l (by simp [hl]))

/-! ### Claim theorems -/

/-- Claim C1, counterexample: `PUSH R0` encodes to `0b10000 <<< 13 = 131072`,
which is not below `2^16`, and the field at bits 15-11 of that word is 0,
not the PUSH opcode `0b10000`: the claimed 16-bit layout is wrong. -/
theorem claim_C1_counterexample :
    parse_line "PUSH R0" = .ok (some 131072) ∧ ¬(131072 < 2^16) ∧
    opLookup "PUSH" = some 0b10000 ∧ (131072 >>> 11) &&& 31 ≠ 0b10000 := by
  refine ⟨rfl, by norm_num, rfl, by decide⟩

/-- Claim C1 (amended): for every source line holding a valid instruction,
the encoder produces an 18-bit unsigned word (strictly below `2^18`) whose
opcode field occupies bits 17-13: extracting those bits yields the
mnemonic's 5-bit opcode, for every format's packer including PUSH/POP. -/
theorem claim_C1_opcode_field (line : String) (w : Nat)
    (h : parse_line line = .ok (some w)) :
    w < 2^18 ∧ ∃ p0 op, (tokens line).get? 0 = some p0 ∧
      opLookup (pyUpper p0) = some op ∧ (w >>> 13) &&& 31 = op := by
  obtain ⟨p0, op, h0, hop, _, hx, hb⟩ := encodeParts_ok_spec _ _ (parse_line_ok_some _ _ h)
  exact ⟨hb, p0, op, h0, hop, hx⟩

/-- Witness for C1: the amended statement applied to `PUSH R0`. -/
theorem claim_C1_witness :
    131072 < 2^18 ∧ ∃ p0 op, (tokens "PUSH R0").get? 0 = some p0 ∧
      opLookup (pyUpper p0) = some op ∧ (131072 >>> 13) &&& 31 = op :=
  claim_C1_opcode_field "PUSH R0" 131072 rfl

/-- Claim C2: `signed` (the spec's `truncate_signed`) realises
two's-complement truncation: it equals reduction modulo `2^width`, and
the three documented examples hold, with wrapping and no error. -/
theorem claim_C2_signed_truncation :
    (∀ (val : Int) (bits : Nat), 0 < bits → signed val bits = val % (2:Int)^bits) ∧
    signed (-1) 5 = 0b11111 ∧ signed 15 5 = 0b01111 ∧ signed 16 5 = 0b10000 := by
  refine ⟨fun val bits _ => signed_eq_emod val bits, by decide, by decide, by decide⟩

/-- Witness for C2: the truncation law applied at `val = -7`, `width = 5`. -/
theorem claim_C2_witness : signed (-7) 5 = (-7 : Int) % (2:Int)^5 :=
  claim_C2_signed_truncation.1 (-7) 5 (by decide)

/-- Claim C5: round trip for `ADD R1, R2, R3`: the word is 582, the
opcode field (bits 17-13, as documented in `encode_R`) reads back as the
ADD opcode `0b00000`, and rd/rs1/rs2 (shifts 9, 5, 1) read back as
1, 2, 3. -/
theorem claim_C5_roundtrip :
    parse_line "ADD R1, R2, R3" = .ok (some 582) ∧
    (582 >>> 13) &&& 31 = 0b00000 ∧ (582 >>> 9) &&& 15 = 1 ∧
    (582 >>> 5) &&& 15 = 2 ∧ (582 >>> 1) &&& 15 = 3 := by
  refine ⟨rfl, by decide, by decide, by decide, by decide⟩

/-- Claim C3, counterexample: `ADD X1` has fewer operand tokens than the
R format requires (1 of 3), yet parsing fails with the invalid-register
error for `X1`, not with `MissingOperand`. -/
theorem claim_C3_counterexample :
    (tokens "ADD X1").length = 2 ∧ requiredOps "ADD" = 3 ∧
    opLookup "ADD" = some 0 ∧
    parse_line "ADD X1" = .error (.invalidRegister "X1") ∧
    parse_line "ADD X1" ≠ .error .missingOperand := by
  refine ⟨rfl, rfl, rfl, rfl, ?_⟩
  intro hc
  rw [show parse_line "ADD X1" = .error (.invalidRegister "X1") from rfl] at hc
  injection hc with hc2
  cases hc2

/-- Claim C3 (amended): a line whose mnemonic is in the table but which
carries fewer operand tokens than its format requires always fails with
a decoder error; the error is `missingOperand` (Python's `IndexError`)
exactly when the failing access is the out-of-range token index, as in
`ADD R1, R2` (a malformed present operand may fail first with its own
error); the per-line error is propagated unchanged by the file loop. -/
theorem claim_C3_missing_operand :
    (∀ (parts : List String) (p0 : String) (op : Nat),
        parts.get? 0 = some p0 → opLookup (pyUpper p0) = some op →
        parts.length ≤ requiredOps (pyUpper p0) →
        ∃ e, encodeParts parts = .error e) ∧
    (∀ (parts : List String) (i : Nat),
        getTok parts i = .error .missingOperand ↔ parts.length ≤ i) ∧
    parse_line "ADD R1, R2" = .error .missingOperand ∧
    (∀ (line : String) (e : AsmErr) (rest : List String),
        parse_line line = .error e → assemble (line :: rest) = .error e) := by
  refine ⟨?_, getTok_missing_iff, rfl, assemble_error_cons⟩
  intro parts p0 op h0 hop hlen
  cases he : encodeParts parts with
  | error e => exact ⟨e, rfl⟩
  | ok w =>
    exfalso
    obtain ⟨p0', op', h0', hop', hsome, _, _⟩ := encodeParts_ok_spec parts w he
    rw [h0] at h0'
    cases h0'
    obtain ⟨t, ht⟩ := Option.isSome_iff_exists.mp hsome
    obtain ⟨hlt, -⟩ := List.get?_eq_some.mp ht
    omega

/-- Witness for C3: the short-line clause applied to the token list of
`ADD R1` (2 tokens, R format needs index 3), and the propagation clause
applied to a failing line. -/
theorem claim_C3_witness :
    (∃ e, encodeParts ["ADD", "R1"] = .error e) ∧
    assemble ["FOO R1", "ADD R1, R2, R3"] = .error (.unknownInstruction "FOO") :=
  ⟨claim_C3_missing_operand.1 ["ADD", "R1"] "ADD" 0 rfl rfl (by decide),
   claim_C3_missing_operand.2.2.2 "FOO R1" (.unknownInstruction "FOO") ["ADD R1, R2, R3"] rfl⟩

/-- Claim C4, counterexample: `R+3` is accepted (value 3) although its
suffix `+3` is not a string of decimal digits, so `reg_number` does not
accept *exactly* the tokens `R` followed by decimal digits: Python's
`int()` also takes an optional sign (and underscores between digits). -/
theorem claim_C4_counterexample :
    reg_number "R+3" = .ok 3 ∧ "+3".data.all Char.isDigit = false := ⟨rfl, rfl⟩

/-- Claim C4 (amended): `reg_number` accepts exactly the tokens `R`
followed by a suffix that Python `int()` parses (digits with optional
sign/underscores/whitespace) with value in `[0,15]`, returning that
value; every `R0`..`R15` returns the exact suffix; a wrong first
character or unparsable suffix gives the invalid-register error, and a
parsed value outside `[0,15]` gives the out-of-range error — as for
`X3`, `R16` and `R-1`. -/
theorem claim_C4_reg_number :
    (∀ (r : String) (n : Nat), reg_number r = .ok n ↔
        (∃ rest, r.data = 'R' :: rest ∧ pyInt rest = some (n : Int) ∧ n ≤ 15)) ∧
    (∀ r : String, r.data.head? ≠ some 'R' → reg_number r = .error (.invalidRegister r)) ∧
    (∀ rest : List Char, pyInt rest = none →
        reg_number (String.mk ('R' :: rest)) = .error (.invalidRegister (String.mk ('R' :: rest)))) ∧
    (∀ (rest : List Char) (num : Int), pyInt rest = some num → (num < 0 ∨ 15 < num) →
        reg_number (String.mk ('R' :: rest)) = .error (.registerOutOfRange (String.mk ('R' :: rest)))) ∧
    (reg_number "R0" = .ok 0 ∧ reg_number "R1" = .ok 1 ∧ reg_number "R2" = .ok 2 ∧
     reg_number "R3" = .ok 3 ∧ reg_number "R4" = .ok 4 ∧ reg_number "R5" = .ok 5 ∧
     reg_number "R6" = .ok 6 ∧ reg_number "R7" = .ok 7 ∧ reg_number "R8" = .ok 8 ∧
     reg_number "R9" = .ok 9 ∧ reg_number "R10" = .ok 10 ∧ reg_number "R11" = .ok 11 ∧
     reg_number "R12" = .ok 12 ∧ reg_number "R13" = .ok 13 ∧ reg_number "R14" = .ok 14 ∧
     reg_number "R15" = .ok 15) ∧
    reg_number "X3" = .error (.invalidRegister "X3") ∧
    reg_number "R16" = .error (.registerOutOfRange "R16") ∧
    reg_number "R-1" = .error (.registerOutOfRange "R-1") := by
  refine ⟨?_, ?_, ?_, ?_, ?_, rfl, rfl, rfl⟩
  · intro r n
    constructor
    · intro h
      unfold reg_number at h
      split at h
      · rename_i rest heq
        cases hp : pyInt rest with
        | none =>
          rw [hp] at h
          exact absurd h (by simp)
        | some num =>
          rw [hp] at h
          by_cases hc : 0 ≤ num ∧ num ≤ 15
          · simp only [hc, and_self, if_true] at h
            cases h
            refine ⟨rest, heq, ?_, by omega⟩
            rw [hp]
            congr 1
            omega
          · simp only [if_neg hc] at h
            exact absurd h (by simp)
      · exact absurd h (by simp)
    · rintro ⟨rest, heq, hp, hn⟩
      unfold reg_number
      split
      · rename_i rest' heq'
        rw [heq] at heq'
        cases heq'
        rw [hp]
        dsimp only
        rw [if_pos (by constructor <;> omega)]
        congr 1
      · rename_i hno
        exact absurd heq (by intro hc; exact hno rest hc)
  · intro r hr
    unfold reg_number
    split
    · rename_i rest heq
      exfalso
      apply hr
      rw [heq]
      rfl
    · rfl
  · intro rest hp
    rw [show reg_number (String.mk ('R' :: rest)) = (match pyInt rest with
      | none => Except.error (.invalidRegister (String.mk ('R' :: rest)))
      | some num => if 0 ≤ num ∧ num ≤ 15 then Except.ok num.toNat
          else Except.error (.registerOutOfRange (String.mk ('R' :: rest)))) from rfl]
    rw [hp]
  · intro rest num hp hout
    rw [show reg_number (String.mk ('R' :: rest)) = (match pyInt rest with
      | none => Except.error (.invalidRegister (String.mk ('R' :: rest)))
      | some num => if 0 ≤ num ∧ num ≤ 15 then Except.ok num.toNat
          else Except.error (.registerOutOfRange (String.mk ('R' :: rest)))) from rfl]
    rw [hp]
    dsimp only
    rw [if_neg (by omega)]
  · exact ⟨rfl, rfl, rfl, rfl, rfl, rfl, rfl, rfl, rfl, rfl, rfl, rfl, rfl, rfl, rfl, rfl⟩

/-- Witness for C4: the acceptance characterisation applied to `R7`. -/
theorem claim_C4_witness : reg_number "R7" = .ok 7 :=
  (claim_C4_reg_number.1 "R7" 7).mpr ⟨"7".data, rfl, rfl, by decide⟩

/-- Claim C6: `ADDI R0, R0, -1` and `ADDI R0, R0, 31` encode to the same
word (both immediates truncate to `0b11111`), and in general `encode_I`
identifies immediates congruent modulo `2^5`; out-of-range immediates
wrap silently, never erroring. -/
theorem claim_C6_imm_wrap :
    parse_line "ADDI R0, R0, -1" = parse_line "ADDI R0, R0, 31" ∧
    parse_line "ADDI R0, R0, -1" = .ok (some (encode_I 0b00110 0 0 (-1))) ∧
    signed (-1) 5 = 0b11111 ∧ signed 31 5 = 0b11111 ∧
    (∀ (op rd rs1 : Nat) (imm imm' : Int), imm % 32 = imm' % 32 →
        encode_I op rd rs1 imm = encode_I op rd rs1 imm') := by
  refine ⟨rfl, rfl, by decide, by decide, ?_⟩
  intro op rd rs1 imm imm' hmod
  unfold encode_I
  have hs : signed imm 5 = signed imm' 5 := by
    rw [signed_eq_emod, signed_eq_emod]
    have h32 : (2:Int)^5 = 32 := by norm_num
    rw [h32]
    exact hmod
  rw [hs]

/-- Witness for C6: the congruence law applied to `-1` and `31`. -/
theorem claim_C6_witness : encode_I 6 0 0 (-1) = encode_I 6 0 0 31 :=
  claim_C6_imm_wrap.2.2.2.2 6 0 0 (-1) 31 (by decide)

/-- Claim C7: translation is fail-fast: if all lines before a failing
line parse, the whole run aborts with that first error no matter what
follows (so no later line contributes and no output is produced, since
`assemble_file` only writes after a fully successful loop); if every
line parses, translation completes; an unknown mnemonic raises the
unknown-instruction error. -/
theorem claim_C7_fail_fast :
    (∀ (pre : List String) (line : String) (post : List String) (e : AsmErr),
        (∀ l ∈ pre, ∃ r, parse_line l = .ok r) → parse_line line = .error e →
        assemble (pre ++ line :: post) = .error e ∧
        assemble_file (pre ++ line :: post) = .error e) ∧
    (∀ lines : List String, (∀ l ∈ lines, ∃ r, parse_line l = .ok r) →
        ∃ ws, assemble lines = .ok ws) ∧
    parse_line "FOO R1" = .error (.unknownInstruction "FOO") := by
  refine ⟨?_, assemble_all_ok, rfl⟩
  intro pre line post e hpre hline
  have h := assemble_first_error pre line post e hpre hline
  refine ⟨h, ?_⟩
  unfold assemble_file
  rw [h]
  rfl

/-- Witness for C7: a three-line program whose second line fails aborts
with that error, ignoring the third line. -/
theorem claim_C7_witness :
    assemble ["ADD R1, R2, R3", "FOO R1", "JUMP -5"] = .error (.unknownInstruction "FOO") ∧
    assemble_file ["ADD R1, R2, R3", "FOO R1", "JUMP -5"] = .error (.unknownInstruction "FOO") :=
  claim_C7_fail_fast.1 ["ADD R1, R2, R3"] "FOO R1" ["JUMP -5"]
    (.unknownInstruction "FOO")
    (by intro l hl
        rw [List.mem_singleton] at hl
        subst hl
        exact ⟨some 582, rfl⟩)
    rfl

/-- Claim C8: on success the output words are exactly the in-order
encodings of the instruction lines (skipped lines consume no slot), and
a line that is blank after comment stripping parses to no instruction
and no error. -/
theorem claim_C8_order :
    (∀ (lines : List String) (ws : List Nat), assemble lines = .ok ws →
        ws = lines.filterMap (fun l =>
          match parse_line l with
          | .ok (some w) => some w
          | _ => none)) ∧
    (∀ l : String, pyStrip (dropComment l.data) = [] → parse_line l = .ok none) :=
  ⟨assemble_ok_words, parse_line_blank⟩

/-- Witness for C8: a three-line program with a comment line in the
middle yields the two instruction words in source order. -/
theorem claim_C8_witness :
    [582, 106491] = (["ADD R1, R2, R3", "// comment only", "JUMP -5"].filterMap (fun l =>
      match parse_line l with
      | .ok (some w) => some w
      | _ => none)) ∧
    parse_line "  // comment only" = .ok none :=
  ⟨claim_C8_order.1 ["ADD R1, R2, R3", "// comment only", "JUMP -5"] [582, 106491] rfl,
   claim_C8_order.2 "  // comment only" rfl⟩

/-- Claim C9: the output text starts with the header line `v2.0 raw`;
every word below `16^5` (which covers all encoder outputs, shown by the
third clause) renders as exactly 5 lowercase zero-padded hex digits; the
data lines pack 8 words per line; a program of only blank/comment lines
produces the header and zero data lines; and a concrete two-word render
shows the space-separated layout. -/
theorem claim_C9_output_format :
    (∀ codes : List Nat, ∃ rest, renderOutput codes = "v2.0 raw\n" ++ rest) ∧
    (∀ n : Nat, n < 16^5 → (hex5 n).length = 5 ∧ ∀ c ∈ (hex5 n).data, isLowerHex c = true) ∧
    (∀ (line : String) (w : Nat), parse_line line = .ok (some w) → w < 16^5) ∧
    (∀ ws : List String, (renderLines ws).length = (ws.length + 7) / 8) ∧
    (∀ lines : List String, (∀ l ∈ lines, pyStrip (dropComment l.data) = []) →
        assemble_file lines = .ok "v2.0 raw\n") ∧
    renderOutput [582, 106491] = "v2.0 raw\n00246 19ffb\n" := by
  refine ⟨fun codes => ⟨_, rfl⟩, fun n hn => ⟨hex5_len n hn, hex5_lower n⟩, ?_, ?_, ?_, rfl⟩
  · intro line w h
    obtain ⟨_, _, _, _, _, _, hb⟩ := encodeParts_ok_spec _ _ (parse_line_ok_some _ _ h)
    have : (2:Nat)^18 < 16^5 := by norm_num
    omega
  · intro ws
    exact renderAux_len ws.length ws le_rfl
  · intro lines h
    unfold assemble_file
    rw [assemble_blank lines h]
    rfl

/-- Witness for C9: the comments-only clause applied to a two-line
comment/blank input, and the hex-width clause applied at 582. -/
theorem claim_C9_witness :
    assemble_file ["// only a comment", "   "] = .ok "v2.0 raw\n" ∧
    ((hex5 582).length = 5 ∧ ∀ c ∈ (hex5 582).data, isLowerHex c = true) :=
  ⟨claim_C9_output_format.2.2.2.2.1 ["// only a comment", "   "] (by decide),
   claim_C9_output_format.2.1 582 (by norm_num)⟩

/-- Claim C10: the mnemonic is uppercased before the opcode lookup, so
`add R1, R2, R3` assembles exactly like `ADD R1, R2, R3`, but register
tokens are case-sensitive: any token starting with lowercase `r` is
rejected with the invalid-register error, whatever follows. -/
theorem claim_C10_case :
    parse_line "add R1, R2, R3" = .ok (some 582) ∧
    parse_line "ADD R1, R2, R3" = .ok (some 582) ∧
    (∀ rest : List Char, reg_number (String.mk ('r' :: rest))
        = .error (.invalidRegister (String.mk ('r' :: rest)))) ∧
    parse_line "ADD r1, R2, R3" = .error (.invalidRegister "r1") := by
  refine ⟨rfl, rfl, fun rest => rfl, rfl⟩
